import Mathlib

/-!
Shallow embedding of the `monzo/terrors` Go library (the causal-chain error
model in the main package file, together with `marshaling.go`), written so the
claims about the library can be stated and settled as Lean theorems.

Modelling conventions:
* A Go `error` interface value is `GoError := Option (TError ⊕ Foreign)`:
  `none` is the nil interface, `Sum.inl` a `*terrors.Error`, `Sum.inr` any
  foreign error value.
* `terrors.Error` (the struct) is the nested inductive `TError`; its `cause`
  field holds a `GoError` (with `none` for a nil cause).
* Go `map[string]string` is an association list with unique keys wrapped in
  `Option` (`none` is the nil map); Go string prefix testing
  (`strings.HasPrefix`) is prefix testing on the character list.
* Go `int32(...)` conversion wraps; it is modelled by `toInt32` on `Int`.
* The stack-capture collaborator and the builder helpers (`errorFactory`,
  `errCode`, `Wrap`) are not part of the given source tree; they are modelled
  from the spec and marked as such in their doc comments.
-/

namespace Terrors

/-- A key/value parameter map, as an association list (first binding wins on
lookup; the operations below keep keys unique, as a Go map does). -/
abbrev PMap := List (String × String)

/-- One captured stack frame (`stack.Frame`): filename, line, method and the
raw program counter. -/
structure Frame where
  Filename : String
  Line : Int
  Method : String
  PC : Nat
deriving DecidableEq

/-- A foreign (non-terrors) Go error value: its rendered `Error()` string and,
when the dynamic type additionally implements the `retryableError` capability
interface (`Retryable() bool`), the boolean that method reports. -/
structure Foreign where
  errorString : String
  retryableCap : Option Bool
deriving DecidableEq

/-- The `terrors.Error` struct. The `cause` field is a Go `error` interface
value: `none` for nil, `Sum.inl` for a `*Error` link, `Sum.inr` for a foreign
link. -/
inductive TError where
  | mk (Code : String) (Message : String) (Params : Option PMap)
      (StackFrames : List Frame) (IsRetryable : Option Bool)
      (IsUnexpected : Option Bool) (MarshalCount : Int)
      (MessageChain : List String) (cause : Option (TError ⊕ Foreign)) : TError

/-- A Go `error` interface value in the terrors world. -/
abbrev GoError := Option (TError ⊕ Foreign)

def TError.Code : TError → String
  | .mk c _ _ _ _ _ _ _ _ => c

def TError.Message : TError → String
  | .mk _ m _ _ _ _ _ _ _ => m

def TError.Params : TError → Option PMap
  | .mk _ _ p _ _ _ _ _ _ => p

def TError.StackFrames : TError → List Frame
  | .mk _ _ _ s _ _ _ _ _ => s

def TError.IsRetryable : TError → Option Bool
  | .mk _ _ _ _ r _ _ _ _ => r

def TError.IsUnexpected : TError → Option Bool
  | .mk _ _ _ _ _ u _ _ _ => u

def TError.MarshalCount : TError → Int
  | .mk _ _ _ _ _ _ n _ _ => n

def TError.MessageChain : TError → List String
  | .mk _ _ _ _ _ _ _ ch _ => ch

def TError.cause : TError → GoError
  | .mk _ _ _ _ _ _ _ _ c => c

/-- The generic error code constants of the package. -/
def ErrBadRequest : String := "bad_request"

def ErrBadResponse : String := "bad_response"

def ErrForbidden : String := "forbidden"

def ErrInternalService : String := "internal_service"

def ErrNotFound : String := "not_found"

def ErrPreconditionFailed : String := "precondition_failed"

def ErrTimeout : String := "timeout"

def ErrUnauthorized : String := "unauthorized"

def ErrUnknown : String := "unknown"

def ErrRateLimited : String := "rate_limited"

/-- The `retryableCodes` table: codes that default to retryable. -/
def retryableCodes : List String :=
  [ErrInternalService, ErrTimeout, ErrUnknown, ErrRateLimited]

/-- Go `strings.HasPrefix`, modelled on the character lists of the strings. -/
def hasPfx (s pre : String) : Bool :=
  pre.data.isPrefixOf s.data

/-- Go `strings.Join(elems, sep)`. -/
def stringsJoin (sep : String) : List String → String
  | [] => ""
  | [s] => s
  | s :: s' :: rest => s ++ sep ++ stringsJoin sep (s' :: rest)

/-- The rendered string of a Go error value: `Error()` on the dynamic type.
For a foreign error it is the stored rendering; a `*Error` link contributes
its message followed by the walk of its own cause, exactly as the loop in
`ErrorMessage` consumes it (see `errorMessageFrom`). -/
def errorMessageFrom : GoError → String
  | none => ""
  | some (.inr f) => ": " ++ f.errorString
  | some (.inl (.mk _ m _ _ _ _ _ _ c)) => ": " ++ m ++ errorMessageFrom c

/-- Method `(*Error).ErrorMessage`: the error message followed by the message
of each link of the cause chain, a foreign link contributing its full rendered
string and ending the walk. -/
def TError.ErrorMessage (p : TError) : String :=
  p.Message ++ errorMessageFrom p.cause

/-- Method `(*Error).legacyErrString` (the receiver is known non-nil here, so
the nil-receiver branch of the Go code is dropped). -/
def TError.legacyErrString (p : TError) : String :=
  if p.Message = "" then p.Code
  else if p.Code = "" then p.Message
  else p.Code ++ ": " ++ p.Message

/-- Method `(*Error).Error`: legacy rendering when there is no cause, else
`"<code>: <ErrorMessage>"`. -/
def TError.ErrorString (p : TError) : String :=
  match p.cause with
  | none => p.legacyErrString
  | some _ => p.Code ++ ": " ++ p.ErrorMessage

/-- Method `(*Error).Unwrap`. -/
def TError.Unwrap (p : TError) : GoError :=
  p.cause

/-- Method `(*Error).PrefixMatches`: joins the parts with `"."` and tests
whether the code starts with the joined string. -/
def TError.PrefixMatches (p : TError) (prefixParts : List String) : Bool :=
  hasPfx p.Code (stringsJoin "." prefixParts)

/-- Method `(*Error).Retryable`: the explicit flag when set, else whether the
code prefix-matches one of `retryableCodes`. -/
def TError.Retryable (p : TError) : Bool :=
  match p.IsRetryable with
  | some b => b
  | none => retryableCodes.any (fun c => p.PrefixMatches [c])

/-- Method `(*Error).Unexpected`: the explicit flag when set, else `false`. -/
def TError.Unexpected (p : TError) : Bool :=
  match p.IsUnexpected with
  | some b => b
  | none => false

/-- Function `Is`: prefix-match at the current error, else recurse into the
cause; nil and foreign values never match. -/
def IsCode : GoError → List String → Bool
  | some (.inl (.mk code _ _ _ _ _ _ _ c)), codes =>
      if hasPfx code (stringsJoin "." codes) then true
      else
        match c with
        | none => false
        | some next => IsCode (some next) codes
  | _, _ => false

/-- Go map assignment `m[k] = v`: replace the binding if the key is present,
otherwise append a new binding. -/
def mapSet : PMap → String → String → PMap
  | [], k, v => [(k, v)]
  | (k', v') :: rest, k, v =>
      if k' = k then (k, v) :: rest else (k', v') :: mapSet rest k v

/-- Go map read `m[k]` (with presence), on an association list. -/
def mapGet : PMap → String → Option String
  | [], _ => none
  | (k', v') :: rest, k => if k' = k then some v' else mapGet rest k

/-- A Go `for k, v := range src { dst[k] = v }` loop copying the entries of
`src` into `dst`. -/
def rangeCopy (dst : PMap) (src : PMap) : PMap :=
  src.foldl (fun d kv => mapSet d kv.1 kv.2) dst

/-- Function `addParams`: a new error whose params are a freshly made map
holding the original entries with the new entries merged over them; every
other field is copied. A nil map ranges over no entries. -/
def addParams (err : TError) (params : Option PMap) : TError :=
  .mk err.Code err.Message
    (some (rangeCopy (rangeCopy [] (err.Params.getD [])) (params.getD [])))
    err.StackFrames err.IsRetryable err.IsUnexpected err.MarshalCount
    err.MessageChain err.cause

/-- Modelled from the spec: the stack-capture collaborator (not in the given
source tree). It produces an ordered, finite, non-empty frame sequence at the
factory's call site; the concrete frames stand in for whatever the runtime
reports. -/
def capturedStack : List Frame :=
  [⟨"caller.go", 42, "pkg.Caller", 7⟩, ⟨"main.go", 9, "main.main", 3⟩]

/-- Modelled from the spec: `errorFactory` (in the builders file, not in the
given source tree) builds a fresh Error with the given code and message, the
given params or an empty mapping if nil, a freshly captured stack, no
classification, zero marshal count and no cause. -/
def errorFactory (code message : String) (params : Option PMap) : TError :=
  .mk code message (some (params.getD [])) capturedStack none none 0 [] none

/-- Modelled from the spec: `errCode` (in the builders file, not in the given
source tree) suffixes the code with `"." ++ subCode` when a sub-code is
given. -/
def errCode (code subCode : String) : String :=
  if subCode = "" then code else code ++ "." ++ subCode

/-- Function `New`. -/
def New (code message : String) (params : Option PMap) : TError :=
  errorFactory code message params

/-- Function `NewInternalWithCause`: a fresh `internal_service` error (with
optional sub-code) whose cause is `err`; the message chain flattens the
cause's history, and classification and marshal count are inherited from a
`*Error` cause (the flag only when explicitly set) or, failing that, the
retryability flag is adopted from a foreign cause exposing the
`retryableError` capability. -/
def NewInternalWithCause (err : TError ⊕ Foreign) (message : String)
    (params : Option PMap) (subCode : String) : TError :=
  let base := errorFactory (errCode ErrInternalService subCode) message params
  let chain : List String :=
    match err with
    | .inl v => v.Message :: v.MessageChain
    | .inr f => [f.errorString]
  let count : Int :=
    match err with
    | .inl v => v.MarshalCount
    | .inr _ => base.MarshalCount
  let retry : Option Bool :=
    match err with
    | .inl v => match v.IsRetryable with
        | some b => some b
        | none => base.IsRetryable
    | .inr f => match f.retryableCap with
        | some b => some b
        | none => base.IsRetryable
  .mk base.Code base.Message base.Params base.StackFrames retry
    base.IsUnexpected count chain (some err)

/-- Function `Augment`: nil in, nil out; an existing `*Error` is re-wrapped
with the context as message, merged params, no fresh stack and itself as
cause; any other error goes through `NewInternalWithCause`. -/
def Augment (err : GoError) (context : String) (params : Option PMap) :
    GoError :=
  match err with
  | none => none
  | some (.inl e) =>
      let withMergedParams := addParams e params
      some (.inl (.mk e.Code context withMergedParams.Params []
        e.IsRetryable e.IsUnexpected e.MarshalCount
        (e.Message :: e.MessageChain) (some (.inl e))))
  | some (.inr f) =>
      some (.inl (NewInternalWithCause (.inr f) context params ""))

/-- Function `Propagate`: nil in, nil out; identity on a `*Error`; a foreign
error is wrapped by `NewInternalWithCause` with its rendered message. -/
def Propagate (err : GoError) : GoError :=
  match err with
  | none => none
  | some (.inl e) => some (.inl e)
  | some (.inr f) =>
      some (.inl (NewInternalWithCause (.inr f) f.errorString none ""))

/-- Function `IsRetryable` (the package-level function): normalize through
`Propagate`, then resolve retryability; `false` when the result is not a
`*Error`. -/
def IsRetryableFn (err : GoError) : Bool :=
  match Propagate err with
  | some (.inl r) => r.Retryable
  | _ => false

/-- Modelled from the spec: `Wrap` (in the builders file, not in the given
source tree). Nil in, nil out; an existing Error becomes a shallow copy with
the extra params merged into a new mapping and everything else preserved; a
foreign error becomes a fresh `internal_service` Error with the rendered
message, the extra params, a fresh stack and the foreign error as cause. -/
def Wrap (err : GoError) (extraParams : Option PMap) : GoError :=
  match err with
  | none => none
  | some (.inl e) => some (.inl (addParams e extraParams))
  | some (.inr f) =>
      let base := errorFactory ErrInternalService f.errorString extraParams
      some (.inl (.mk base.Code base.Message base.Params base.StackFrames
        base.IsRetryable base.IsUnexpected base.MarshalCount base.MessageChain
        (some (.inr f))))

/-- Go `int32(v)` conversion on an `Int`: wrap into `[-2^31, 2^31)`. -/
def toInt32 (v : Int) : Int :=
  (v + 2 ^ 31) % 2 ^ 32 - 2 ^ 31

/-- The wire `BoolValue` message. -/
structure BoolValue where
  value : Bool
deriving DecidableEq

/-- The wire `StackFrame` message (no program counter on the wire). -/
structure PFrame where
  Filename : String
  Line : Int
  Method : String
deriving DecidableEq

/-- The wire `Error` message. Pointer fields are `Option`s; slices are plain
lists (a nil slice and an empty slice render, marshal and compare alike in
every operation modelled here, so the distinction is collapsed). -/
structure PError where
  Code : String
  Message : String
  Params : Option PMap
  Stack : List PFrame
  Retryable : Option BoolValue
  Unexpected : Option BoolValue
  MarshalCount : Int
  MessageChain : List String
deriving DecidableEq

/-- Function `stackToProto`: frames are copied field for field, dropping the
program counter (the Go nil-slice branch returns the empty slice, which
coincides with mapping the empty list). -/
def stackToProto (s : List Frame) : List PFrame :=
  s.map (fun f => ⟨f.Filename, toInt32 f.Line, f.Method⟩)

/-- Function `protoToStack`: frames are copied field for field (the program
counter is zero-valued; the Go nil branch coincides with mapping nothing). -/
def protoToStack (s : List PFrame) : List Frame :=
  s.map (fun f => ⟨f.Filename, f.Line, f.Method, 0⟩)

/-- Function `Marshal`: nil maps to the fixed unknown record; otherwise the
fields are copied across, the `retryable`/`unexpected` wire messages are
always allocated (value false when the flag is unset), the count is
incremented through an `int32` conversion, and an empty code becomes
`"unknown"`. -/
def Marshal (e : Option TError) : PError :=
  match e with
  | none =>
      ⟨ErrUnknown, "Unknown error, nil error marshalled",
        none, [], none, none, 0, []⟩
  | some e =>
      let retryable : BoolValue :=
        match e.IsRetryable with
        | none => ⟨false⟩
        | some b => ⟨b⟩
      let unexpected : BoolValue :=
        match e.IsUnexpected with
        | none => ⟨false⟩
        | some b => ⟨b⟩
      let code := if e.Code = "" then ErrUnknown else e.Code
      ⟨code, e.Message, e.Params, stackToProto e.StackFrames,
        some retryable, some unexpected, toInt32 (e.MarshalCount + 1),
        e.MessageChain⟩

/-- Function `Unmarshal`: nil maps to the fixed unknown error with an empty
params map; otherwise fields are copied across, the optional flags are read
from the wire messages only when present, the count is copied verbatim, an
empty code becomes `"unknown"`, and a nil params map becomes an empty one.
The cause is never populated. -/
def Unmarshal (p : Option PError) : TError :=
  match p with
  | none => .mk ErrUnknown "Nil error unmarshalled!" (some []) [] none none 0 [] none
  | some p =>
      let code := if p.Code = "" then ErrUnknown else p.Code
      let params := match p.Params with
        | none => some ([] : PMap)
        | some m => some m
      .mk code p.Message params (protoToStack p.Stack)
        (p.Retryable.map (·.value)) (p.Unexpected.map (·.value))
        p.MarshalCount p.MessageChain none

/-! ### Pointer-graph model of the cause chain

The inductive `TError` cannot represent the cyclic cause graphs that Go
pointers allow, so the three chain-walking operations are additionally
embedded over an explicit heap of error nodes, with the source's loops and
recursion translated fuel-indexed: a result `none` means the loop had not
finished within the given number of iterations. -/

/-- An error node in the pointer-graph model; `cause` points at another node
by heap index, or holds a foreign error, or is nil. -/
structure HErrorData where
  Code : String
  Message : String
  StackFrames : List Frame
  cause : Option (Nat ⊕ Foreign)
deriving Inhabited

/-- A heap of error nodes; a `*Error` pointer is an index into it. -/
abbrev Heap := List HErrorData

/-- Dereference an error pointer. -/
def heapGet (h : Heap) (i : Nat) : HErrorData :=
  h.getD i default

/-- The `maxCausalDepth` constant of `StackStringWithMaxSize`. -/
def maxCausalDepth : Nat := 1024

/-- The loop of `ErrorMessage` over the pointer graph: state is the output
builder and the `next` error value; each fuel unit pays for one iteration. -/
def errorMessageLoop (h : Heap) : Nat → String → Option (Nat ⊕ Foreign) → Option String
  | _, out, none => some out
  | 0, _, some _ => none
  | fuel + 1, out, some (.inl i) =>
      errorMessageLoop h fuel (out ++ ": " ++ (heapGet h i).Message) (heapGet h i).cause
  | fuel + 1, out, some (.inr f) =>
      errorMessageLoop h fuel (out ++ ": " ++ f.errorString) none

/-- `ErrorMessage` on the pointer graph, fuel-indexed. -/
def errorMessageFuel (h : Heap) (i : Nat) (fuel : Nat) : Option String :=
  errorMessageLoop h fuel (heapGet h i).Message (heapGet h i).cause

/-- The recursion of `Is` over the pointer graph, fuel-indexed: each fuel
unit pays for one recursive call on a `*Error`. -/
def isCodeFuel (h : Heap) : Nat → Option (Nat ⊕ Foreign) → List String → Option Bool
  | _, none, _ => some false
  | _, some (.inr _), _ => some false
  | 0, some (.inl _), _ => none
  | fuel + 1, some (.inl i), codes =>
      if hasPfx (heapGet h i).Code (stringsJoin "." codes) then some true
      else
        match (heapGet h i).cause with
        | none => some false
        | some next => isCodeFuel h fuel (some next) codes

/-- The inner frame loop of `StackStringWithMaxSize`: renders each frame onto
the buffer, breaking out (second component `true`) once the size estimate
exceeds the limit. -/
def writeFrames (sizeLimit : Int) : List Frame → String → String × Bool
  | [], buf => (buf, false)
  | f :: rest, buf =>
      let estimatedLineLen : Int :=
        (f.Filename.utf8ByteSize : Int) + (f.Method.utf8ByteSize : Int) + 16
      if sizeLimit < estimatedLineLen + (buf.utf8ByteSize : Int) then (buf, true)
      else
        writeFrames sizeLimit rest
          (buf ++ "\n  " ++ f.Filename ++ ":" ++ toString f.Line ++ " in " ++ f.Method)

/-- The outer loop of `StackStringWithMaxSize` on the pointer graph: state is
the current error pointer, the buffer and the causal depth; the loop follows
a `*Error` cause only while `causalDepth < maxCausalDepth`. -/
def stackStringLoop (h : Heap) (sizeLimit : Int) :
    Nat → Option Nat → String → Nat → Option String
  | _, none, buf, _ => some buf
  | 0, some _, _, _ => none
  | fuel + 1, some i, buf, causalDepth =>
      let terr := heapGet h i
      let buf1 :=
        if buf.utf8ByteSize ≠ 0 ∧ terr.StackFrames ≠ [] then buf ++ "\n---" else buf
      match writeFrames sizeLimit terr.StackFrames buf1 with
      | (buf2, true) => some buf2
      | (buf2, false) =>
          match terr.cause with
          | some (.inl j) =>
              if causalDepth < maxCausalDepth then
                stackStringLoop h sizeLimit fuel (some j) buf2 (causalDepth + 1)
              else some buf2
          | _ => some buf2

/-- `StackStringWithMaxSize` on the pointer graph, fuel-indexed. -/
def stackStringFuel (h : Heap) (p : Option Nat) (sizeLimit : Int) (fuel : Nat) :
    Option String :=
  stackStringLoop h sizeLimit fuel p "" 0

/-- A self-causing error: one node whose cause points back at itself. -/
def hCyc : Heap :=
  [⟨"selfish", "m", [], some (.inl 0)⟩]

/-! ### Heap model of `map[string]string` for the copy-merge claim

To state that `addParams` never mutates the caller's map, the Go maps are
modelled by reference: a heap of association lists, with `make` allocating a
fresh slot and `m[k] = v` writing through the reference. -/

/-- A heap of string maps; a Go map value is an index into it. -/
abbrev MapHeap := List PMap

/-- Dereference a map. -/
def heapRead (h : MapHeap) (r : Nat) : PMap :=
  h.getD r []

/-- Go `m[k] = v` through reference `r`. -/
def heapWriteKV (h : MapHeap) (r : Nat) (k v : String) : MapHeap :=
  h.set r (mapSet (heapRead h r) k v)

/-- A Go `for k, v := range entries { dst[k] = v }` loop through reference
`dst`. -/
def heapRangeCopy (h : MapHeap) (dst : Nat) (entries : PMap) : MapHeap :=
  entries.foldl (fun h' kv => heapWriteKV h' dst kv.1 kv.2) h

/-- Function `addParams`, params part, in the map-heap model: allocate a
fresh map, copy the error's entries into it, then copy the extra entries over
them, and return the new heap with the reference to the fresh map. The two
argument references play `err.Params` and `params`. -/
def addParamsHeap (h : MapHeap) (errParams extraParams : Nat) : MapHeap × Nat :=
  let copied := h.length
  let h1 := h ++ [[]]
  let h2 := heapRangeCopy h1 copied (heapRead h1 errParams)
  let h3 := heapRangeCopy h2 copied (heapRead h2 extraParams)
  (h3, copied)

/-! ### Spec-side renderings used by the refinement statements -/

/-- Stated from the claim for `Error()` rendering: the messages contributed
by the cause chain after this error's own message — each `*Error` link its
message, a foreign link its full rendered string, as a terminator. -/
def specChainTail : GoError → List String
  | none => []
  | some (.inr f) => [f.errorString]
  | some (.inl (.mk _ m _ _ _ _ _ _ c)) => m :: specChainTail c

/-- Stated from the claim: the messages obtained by walking the cause chain,
starting with this error's own message. -/
def specChainMessages (e : TError) : List String :=
  e.Message :: specChainTail e.cause

/-- Stated from the claim for `Is`: the links of the chain reachable from an
error value through consecutive `*Error` links. -/
def terrorChain : TError → List TError
  | e@(.mk _ _ _ _ _ _ _ _ c) =>
      e ::
        match c with
        | some (.inl t) => terrorChain t
        | _ => []

/-- The reachable `*Error` links of a Go error value: empty for nil and for a
foreign error. -/
def goChain : GoError → List TError
  | some (.inl e) => terrorChain e
  | _ => []

/-- The rendered `Error()` string of a Go error value (empty for nil, where Go
would fault). -/
def errStringOfGo : GoError → String
  | none => ""
  | some (.inl e) => e.ErrorString
  | some (.inr f) => f.errorString

/-! ### Concrete sample values used by witnesses and counterexamples -/

/-- An Error with neither optional flag set (the marshalling failing input). -/
def eUnset : TError :=
  .mk ErrInternalService "foo" none [] none none 0 [] none

/-- An Error whose marshal count sits at the top of the `int32` range. -/
def eCountMax : TError :=
  .mk ErrTimeout "foo" none [] (some true) none 2147483647 [] none

/-- An ordinary Error with an explicit retryable flag and a small count. -/
def eCountSmall : TError :=
  .mk ErrTimeout "m" none [] (some true) none 3 [] none

/-- A leaf Error in the style of `NotFound("foo", "failed to find foo", nil)`
(no cause). -/
def tLeaf : TError :=
  .mk "not_found.foo" "failed to find foo" (some []) capturedStack none none 0 [] none

/-- An Error with a causal chain ending in `tLeaf`. -/
def eChain : TError :=
  .mk "internal_service" "added context" (some []) [] none none 0
    ["failed to find foo"] (some (.inl tLeaf))

/-- An Error whose code extends `"timeout"` without a dot boundary. -/
def eTimeoutCustom : TError :=
  .mk "timeout_custom" "m" none [] none none 0 [] none

/-- An Error with an unset retryable flag and a dotted timeout code. -/
def eTimeoutDotted : TError :=
  .mk "timeout.x" "m" none [] none none 0 [] none

/-- A concrete map heap: reference 0 plays an error's params, reference 1 the
extra params, sharing the key `"k"`. -/
def mapHeap0 : MapHeap :=
  [[("a", "1"), ("k", "orig")], [("k", "new"), ("b", "2")]]

end Terrors

namespace Terrors

/-! ## Theorems -/

/-- Claim C8: each boundary-crossing wrapping operation is total over its
error input and maps nil to nil — `Wrap nil p`, `Augment nil c p` and
`Propagate nil` all return nil for every choice of the other arguments, and
the package-level `IsRetryable nil` returns false. -/
theorem claim_C8 :
    (∀ p, Wrap none p = none) ∧
    (∀ c p, Augment none c p = none) ∧
    Propagate none = none ∧
    IsRetryableFn none = false :=
  ⟨fun _ => rfl, fun _ _ => rfl, rfl, rfl⟩

/-- Claim C7: `Propagate` is the identity on every value that is already an
Error, and on every foreign error it returns an Error with code
`internal_service`, message equal to the foreign error's rendered string,
cause equal to the foreign error, and the freshly captured, non-empty
stack. -/
theorem claim_C7 :
    (∀ e : TError, Propagate (some (.inl e)) = some (.inl e)) ∧
    (∀ f : Foreign, ∃ t : TError,
      Propagate (some (.inr f)) = some (.inl t) ∧
      t.Code = ErrInternalService ∧
      t.Message = f.errorString ∧
      t.cause = some (.inr f) ∧
      t.StackFrames = capturedStack ∧
      t.StackFrames ≠ []) := by
  refine ⟨fun _ => rfl, fun f => ⟨NewInternalWithCause (.inr f) f.errorString none "", rfl, ?_, ?_, ?_, ?_, ?_⟩⟩
  · rfl
  · rfl
  · rfl
  · rfl
  · simp [NewInternalWithCause, errorFactory, TError.StackFrames, capturedStack]

/-- Claim C1, evaluated at the failing input: marshalling an Error whose
`IsRetryable` and `IsUnexpected` flags are both unset produces a record whose
`retryable` and `unexpected` fields are PRESENT with value false, not absent
as the claim (and the repository's own marshalling test) requires. -/
theorem claim_C1_eval :
    eUnset.IsRetryable = none ∧
    eUnset.IsUnexpected = none ∧
    (Marshal (some eUnset)).Retryable = some ⟨false⟩ ∧
    (Marshal (some eUnset)).Unexpected = some ⟨false⟩ :=
  ⟨rfl, rfl, rfl, rfl⟩

/-- Helper: the `int32` conversion is the identity on the representable
range. -/
theorem toInt32_eq_self (v : Int) (h1 : -2 ^ 31 ≤ v) (h2 : v < 2 ^ 31) :
    toInt32 v = v := by
  unfold toInt32
  rw [Int.emod_eq_of_lt (by omega) (by omega)]
  omega

/-- Claim C3, counterexample: at the top of the `int32` range the marshalled
count wraps, so the round trip does not add one — the Go conversion
`int32(e.MarshalCount + 1)` overflows. -/
theorem claim_C3_cex :
    eCountMax.IsRetryable = some true ∧
    eCountMax.MarshalCount = 2147483647 ∧
    (Unmarshal (some (Marshal (some eCountMax)))).MarshalCount = -2147483648 ∧
    (Unmarshal (some (Marshal (some eCountMax)))).MarshalCount ≠
      eCountMax.MarshalCount + 1 := by
  refine ⟨rfl, rfl, ?_, ?_⟩ <;> decide

/-- Claim C3, amended: for every Error whose `IsRetryable` flag is set, the
round trip through `Marshal` then `Unmarshal` preserves the flag, and — as
long as the incremented count fits in an `int32` — the round-tripped
`MarshalCount` equals the original plus one; `Unmarshal` always copies the
wire count verbatim, so only `Marshal` increments it. -/
theorem claim_C3 :
    (∀ (x : TError) (b : Bool), x.IsRetryable = some b →
      (Unmarshal (some (Marshal (some x)))).IsRetryable = some b) ∧
    (∀ x : TError, -2 ^ 31 ≤ x.MarshalCount + 1 → x.MarshalCount + 1 < 2 ^ 31 →
      (Unmarshal (some (Marshal (some x)))).MarshalCount = x.MarshalCount + 1) ∧
    (∀ p : PError, (Unmarshal (some p)).MarshalCount = p.MarshalCount) := by
  refine ⟨?_, ?_, fun p => rfl⟩
  · intro x b h
    cases x with
    | mk c m pa s r u n ch cs =>
      have h' : r = some b := h
      subst h'
      rfl
  · intro x h1 h2
    cases x with
    | mk c m pa s r u n ch cs =>
      show toInt32 (n + 1) = n + 1
      exact toInt32_eq_self _ h1 h2

/-- Claim C3, witness at a small concrete count. -/
theorem claim_C3_witness :
    (Unmarshal (some (Marshal (some eCountSmall)))).IsRetryable = some true ∧
    (Unmarshal (some (Marshal (some eCountSmall)))).MarshalCount = 3 + 1 :=
  ⟨claim_C3.1 eCountSmall true rfl,
    claim_C3.2.1 eCountSmall (by decide) (by decide)⟩

/-- Claim C4: with an unset `IsRetryable` flag, `Retryable` resolves to true
exactly when the code prefix-matches one of the fixed retryable codes; with
the flag set it returns the flag; with an unset `IsUnexpected` flag,
`Unexpected` returns false. -/
theorem claim_C4 (e : TError) :
    (e.IsRetryable = none →
      (e.Retryable = true ↔ ∃ c ∈ retryableCodes, hasPfx e.Code c = true)) ∧
    (∀ b, e.IsRetryable = some b → e.Retryable = b) ∧
    (e.IsUnexpected = none → e.Unexpected = false) := by
  cases e with
  | mk c m pa s r u n ch cs =>
    refine ⟨?_, ?_, ?_⟩
    · intro h
      have h' : r = none := h
      subst h'
      simp [TError.Retryable, TError.PrefixMatches, TError.IsRetryable,
        TError.Code, stringsJoin, List.any_eq_true]
    · intro b h
      have h' : r = some b := h
      subst h'
      rfl
    · intro h
      have h' : u = none := h
      subst h'
      rfl

/-- Claim C4, witness at a dotted timeout code with both flags unset. -/
theorem claim_C4_witness :
    (eTimeoutDotted.Retryable = true ↔
      ∃ c ∈ retryableCodes, hasPfx eTimeoutDotted.Code c = true) ∧
    eTimeoutDotted.Unexpected = false :=
  ⟨(claim_C4 eTimeoutDotted).1 rfl, (claim_C4 eTimeoutDotted).2.2 rfl⟩

/-- Claim C10: hierarchical code matching is raw string-prefix matching: any
code that begins with the characters of the joined parts matches, with no dot
boundary required, and consequently an Error with an unset retryable flag
whose code merely begins with one of the retryable codes resolves as
retryable. -/
theorem claim_C10 (e : TError) (pfx : String) :
    (pfx.data <+: e.Code.data → e.PrefixMatches [pfx] = true) ∧
    (e.IsRetryable = none → (∃ c ∈ retryableCodes, c.data <+: e.Code.data) →
      e.Retryable = true) := by
  constructor
  · intro h
    show hasPfx e.Code (stringsJoin "." [pfx]) = true
    show pfx.data.isPrefixOf e.Code.data = true
    exact List.isPrefixOf_iff_prefix.mpr h
  · intro hr hex
    obtain ⟨c, hc, hp⟩ := hex
    cases e with
    | mk code m pa s r u n ch cs =>
      have h' : r = none := hr
      subst h'
      show retryableCodes.any _ = true
      refine List.any_eq_true.mpr ⟨c, hc, ?_⟩
      show hasPfx code (stringsJoin "." [c]) = true
      show c.data.isPrefixOf code.data = true
      exact List.isPrefixOf_iff_prefix.mpr hp

/-- Claim C10, witness: the code `"timeout_custom"` matches the bare
`"timeout"` parts and defaults to retryable. -/
theorem claim_C10_witness :
    eTimeoutCustom.PrefixMatches ["timeout"] = true ∧
    eTimeoutCustom.Retryable = true :=
  ⟨(claim_C10 eTimeoutCustom "timeout").1 (by decide),
    (claim_C10 eTimeoutCustom "timeout").2 rfl
      ⟨"timeout", by decide, by decide⟩⟩

/-- Helper: `Is` on a `*Error` agrees with prefix-matching some link of the
chain of consecutive `*Error` links. -/
theorem isCode_eq (e : TError) (codes : List String) :
    IsCode (some (.inl e)) codes =
      (terrorChain e).any (fun t => hasPfx t.Code (stringsJoin "." codes)) := by
  match e with
  | .mk c m pa s r u n ch cause =>
    match cause with
    | none => simp [IsCode, terrorChain, TError.Code]
    | some (.inl t) =>
        have ih := isCode_eq t codes
        by_cases h : hasPfx c (stringsJoin "." codes) = true
        · simp [IsCode, terrorChain, TError.Code, h]
        · simp [IsCode, terrorChain, TError.Code, h, ih]
    | some (.inr f) =>
        by_cases h : hasPfx c (stringsJoin "." codes) = true
        · simp [IsCode, terrorChain, TError.Code, h]
        · simp [IsCode, terrorChain, TError.Code, h]

/-- Claim C6: `Is` returns true exactly when some link of the cause chain
reachable through consecutive `*Error` links has a code starting with the
parts joined by `"."`; a foreign link terminates the walk without matching,
and a nil or foreign top-level value never matches. -/
theorem claim_C6 (err : GoError) (codes : List String) :
    IsCode err codes =
      (goChain err).any (fun t => hasPfx t.Code (stringsJoin "." codes)) := by
  match err with
  | none => simp [IsCode, goChain]
  | some (.inr f) => simp [IsCode, goChain]
  | some (.inl e) => exact isCode_eq e codes

/-- Helper: prepending a message to the walk of a cause chain is joining the
spec-side message list with `": "`. -/
theorem join_walk (s : String) (g : GoError) :
    s ++ errorMessageFrom g = stringsJoin ": " (s :: specChainTail g) := by
  match g with
  | none => simp [errorMessageFrom, specChainTail, stringsJoin, String.append_empty]
  | some (.inr f) =>
      simp [errorMessageFrom, specChainTail, stringsJoin, String.append_assoc]
  | some (.inl (.mk c m pa st r u n ch cause)) =>
      have ih := join_walk m cause
      simp only [errorMessageFrom, specChainTail, stringsJoin, ← ih,
        String.append_assoc]

/-- Claim C5: with a cause present, `Error()` renders the code, `": "`, and
the cause-chain messages joined by `": "`; with no cause it falls back to the
legacy rendering (message alone for an empty code, code alone for an empty
message, `"<code>: <message>"` otherwise); and augmenting a cause-free Error
`t` with context `c` renders `t.Code ++ ": " ++ c ++ ": " ++ t.Message`. -/
theorem claim_C5 :
    (∀ e : TError, e.cause ≠ none →
      e.ErrorString = e.Code ++ ": " ++ stringsJoin ": " (specChainMessages e)) ∧
    (∀ e : TError, e.cause = none →
      (e.Code = "" → e.ErrorString = e.Message) ∧
      (e.Message = "" → e.ErrorString = e.Code) ∧
      (e.Code ≠ "" → e.Message ≠ "" →
        e.ErrorString = e.Code ++ ": " ++ e.Message)) ∧
    (∀ (t : TError) (c : String) (p : Option PMap), t.cause = none →
      errStringOfGo (Augment (some (.inl t)) c p) =
        t.Code ++ ": " ++ c ++ ": " ++ t.Message) := by
  refine ⟨?_, ?_, ?_⟩
  · intro e h
    cases e with
    | mk c m pa s r u n ch cause =>
      match cause with
      | none => exact absurd rfl h
      | some g =>
          simp only [TError.ErrorString, TError.cause, TError.Code,
            TError.ErrorMessage, TError.Message, specChainMessages]
          rw [join_walk]
  · intro e h
    cases e with
    | mk c m pa s r u n ch cause =>
      have h' : cause = none := h
      subst h'
      refine ⟨?_, ?_, ?_⟩
      · intro hc
        have hc' : c = "" := hc
        subst hc'
        show TError.legacyErrString _ = m
        by_cases hm : m = "" <;> simp [TError.legacyErrString, TError.Code, TError.Message, hm]
      · intro hm
        have hm' : m = "" := hm
        subst hm'
        show TError.legacyErrString _ = c
        simp [TError.legacyErrString, TError.Code, TError.Message]
      · intro hc hm
        have hc' : ¬(c = "") := hc
        have hm' : ¬(m = "") := hm
        show TError.legacyErrString _ = c ++ ": " ++ m
        simp [TError.legacyErrString, TError.Code, TError.Message, hc', hm']
  · intro t c p h
    cases t with
    | mk tc tm pa s r u n ch cause =>
      have h' : cause = none := h
      subst h'
      simp only [Augment, errStringOfGo, TError.ErrorString, TError.cause,
        TError.Code, TError.Message, TError.ErrorMessage, errorMessageFrom,
        String.append_empty, String.append_assoc]

/-- Claim C5, witness: a concrete chain, the legacy fallback, and the
augmentation example from the spec. -/
theorem claim_C5_witness :
    eChain.ErrorString =
      eChain.Code ++ ": " ++ stringsJoin ": " (specChainMessages eChain) ∧
    (tLeaf.ErrorString = tLeaf.Code ++ ": " ++ tLeaf.Message) ∧
    errStringOfGo (Augment (some (.inl tLeaf)) "added context" none) =
      tLeaf.Code ++ ": " ++ "added context" ++ ": " ++ tLeaf.Message :=
  ⟨claim_C5.1 eChain (by simp [eChain, TError.cause]),
    (claim_C5.2.1 tLeaf rfl).2.2 (by decide) (by decide),
    claim_C5.2.2 tLeaf "added context" none rfl⟩

/-- Helper: on the self-causing heap, the `ErrorMessage` loop never leaves
its single state, so it exhausts any amount of fuel. -/
theorem emLoop_cyc (fuel : Nat) :
    ∀ out, errorMessageLoop hCyc fuel out (some (.inl 0)) = none := by
  induction fuel with
  | zero => intro out; rfl
  | succ n ih =>
      intro out
      have step : errorMessageLoop hCyc (n + 1) out (some (.inl 0)) =
          errorMessageLoop hCyc n (out ++ ": " ++ (heapGet hCyc 0).Message)
            (heapGet hCyc 0).cause := rfl
      rw [step, show (heapGet hCyc 0).cause = some (.inl 0) from rfl]
      exact ih _

/-- Helper: on the self-causing heap with a non-matching code, the recursion
of `Is` never stops, so it exhausts any amount of fuel. -/
theorem isCodeFuel_cyc (fuel : Nat) :
    isCodeFuel hCyc fuel (some (.inl 0)) ["x"] = none := by
  induction fuel with
  | zero => rfl
  | succ n ih =>
      have step : isCodeFuel hCyc (n + 1) (some (.inl 0)) ["x"] =
          (if hasPfx (heapGet hCyc 0).Code (stringsJoin "." ["x"]) then some true
           else
             match (heapGet hCyc 0).cause with
             | none => some false
             | some next => isCodeFuel hCyc n (some next) ["x"]) := rfl
      rw [step, show hasPfx (heapGet hCyc 0).Code (stringsJoin "." ["x"]) = false
        from by decide]
      exact ih

/-- Helper: the outer loop of `StackStringWithMaxSize` ends within the depth
guard: with one fuel unit in hand and enough fuel to cover the remaining
allowance `maxCausalDepth - causalDepth`, it always produces a result — on
every heap, cyclic ones included. -/
theorem ssLoop_total (fuel : Nat) :
    ∀ (h : Heap) (sizeLimit : Int) (p : Option Nat) (buf : String) (d : Nat),
      1 ≤ fuel → maxCausalDepth + 1 ≤ fuel + d →
      (stackStringLoop h sizeLimit fuel p buf d).isSome = true := by
  induction fuel with
  | zero => intro h s p buf d h1 h2; omega
  | succ n ih =>
      intro h s p buf d h1 h2
      match p with
      | none => rfl
      | some i =>
          simp only [stackStringLoop]
          cases hwf : writeFrames s (heapGet h i).StackFrames
              (if buf.utf8ByteSize ≠ 0 ∧ (heapGet h i).StackFrames ≠ [] then
                buf ++ "\n---" else buf) with
          | mk buf2 brk =>
              cases brk
              · cases hc : (heapGet h i).cause with
                | none => rfl
                | some nx =>
                    cases nx with
                    | inl j =>
                        show (if d < maxCausalDepth then
                            stackStringLoop h s n (some j) buf2 (d + 1)
                          else some buf2).isSome = true
                        by_cases hd : d < maxCausalDepth
                        · rw [if_pos hd]
                          refine ih h s (some j) buf2 (d + 1) ?_ ?_
                          · unfold maxCausalDepth at *
                            omega
                          · omega
                        · rw [if_neg hd]
                          rfl
                    | inr f => rfl
              · rfl

/-- Claim C2, counterexample: on the self-causing cause chain the operations
claimed to be depth-bounded run past the code's only depth constant
(`maxCausalDepth = 1024`): both the `ErrorMessage` walk and the `Is`
recursion are still unfinished after 4096 iterations. -/
theorem claim_C2_cex :
    errorMessageFuel hCyc 0 4096 = none ∧
    isCodeFuel hCyc 4096 (some (.inl 0)) ["x"] = none := by
  constructor
  · rw [show errorMessageFuel hCyc 0 4096 =
        errorMessageLoop hCyc 4096 (heapGet hCyc 0).Message
          (heapGet hCyc 0).cause from rfl,
      show (heapGet hCyc 0).cause = some (.inl 0) from rfl]
    exact emLoop_cyc 4096 _
  · exact isCodeFuel_cyc 4096

/-- Claim C2, amended: only the stack rendering traversal
(`StackStringWithMaxSize`, hence `StackString`) is bounded by the fixed depth
constant `maxCausalDepth = 1024` — it terminates on every heap, cyclic chains
included, within `maxCausalDepth + 1` iterations. The `ErrorMessage` and `Is`
traversals carry no depth bound: on a self-referential cause chain they never
finish, whatever fuel they are given. -/
theorem claim_C2_amended :
    (∀ (h : Heap) (p : Option Nat) (sizeLimit : Int),
      (stackStringFuel h p sizeLimit (maxCausalDepth + 1)).isSome = true) ∧
    (∀ fuel : Nat, errorMessageFuel hCyc 0 fuel = none) ∧
    (∀ fuel : Nat, isCodeFuel hCyc fuel (some (.inl 0)) ["x"] = none) := by
  refine ⟨?_, ?_, isCodeFuel_cyc⟩
  · intro h p s
    exact ssLoop_total (maxCausalDepth + 1) h s p "" 0 (by omega) (by omega)
  · intro fuel
    rw [show errorMessageFuel hCyc 0 fuel =
        errorMessageLoop hCyc fuel (heapGet hCyc 0).Message
          (heapGet hCyc 0).cause from rfl,
      show (heapGet hCyc 0).cause = some (.inl 0) from rfl]
    exact emLoop_cyc fuel _

/-- Helper: reading a map after a Go-style assignment. -/
theorem mapGet_mapSet (m : PMap) (k v k' : String) :
    mapGet (mapSet m k v) k' = if k = k' then some v else mapGet m k' := by
  induction m with
  | nil => simp [mapSet, mapGet]
  | cons hd tl ih =>
      obtain ⟨k0, v0⟩ := hd
      by_cases h0 : k0 = k
      · subst h0
        simp only [mapSet, if_pos rfl]
        by_cases h1 : k0 = k'
        · subst h1; simp [mapGet]
        · simp [mapGet, h1]
      · simp only [mapSet, if_neg h0]
        by_cases h1 : k0 = k'
        · subst h1
          have : ¬(k = k0) := fun hh => h0 hh.symm
          simp [mapGet, this]
        · simp [mapGet, h1, ih]

/-- Helper: a key that is absent from the entry list reads back as nothing. -/
theorem mapGet_eq_none_of_not_mem (es : PMap) (k : String)
    (h : k ∉ es.map Prod.fst) : mapGet es k = none := by
  induction es with
  | nil => rfl
  | cons hd tl ih =>
      obtain ⟨k0, v0⟩ := hd
      simp only [List.map_cons, List.mem_cons] at h
      push_neg at h
      have hne : k0 ≠ k := fun hh => h.1 hh.symm
      simp [mapGet, hne, ih h.2]

/-- Helper: copying entries over a map leaves absent keys reading from the
underlying map. -/
theorem rangeCopy_get_absent (es : PMap) :
    ∀ (m : PMap) (k : String), mapGet es k = none →
      mapGet (rangeCopy m es) k = mapGet m k := by
  induction es with
  | nil => intro m k _; rfl
  | cons hd tl ih =>
      intro m k h
      obtain ⟨k0, v0⟩ := hd
      have h0 : ¬(k0 = k) := by
        intro hh
        simp [mapGet, hh] at h
      have ht : mapGet tl k = none := by
        simpa [mapGet, h0] using h
      have : rangeCopy m ((k0, v0) :: tl) = rangeCopy (mapSet m k0 v0) tl := rfl
      rw [this, ih _ k ht, mapGet_mapSet, if_neg h0]

/-- Helper: with unique keys, copying entries over a map makes each present
key read back its (unique) value. -/
theorem rangeCopy_get_present (es : PMap) :
    ∀ (m : PMap) (k v : String), (es.map Prod.fst).Nodup →
      mapGet es k = some v → mapGet (rangeCopy m es) k = some v := by
  induction es with
  | nil => intro m k v _ h; simp [mapGet] at h
  | cons hd tl ih =>
      intro m k v hnd h
      obtain ⟨k0, v0⟩ := hd
      simp only [List.map_cons, List.nodup_cons] at hnd
      have hstep : rangeCopy m ((k0, v0) :: tl) = rangeCopy (mapSet m k0 v0) tl := rfl
      by_cases h0 : k0 = k
      · subst h0
        have hv : v0 = v := by simpa [mapGet] using h
        subst hv
        have habs : mapGet tl k0 = none :=
          mapGet_eq_none_of_not_mem tl k0 hnd.1
        rw [hstep, rangeCopy_get_absent tl _ k0 habs, mapGet_mapSet, if_pos rfl]
      · have ht : mapGet tl k = some v := by simpa [mapGet, h0] using h
        rw [hstep]
        exact ih _ k v hnd.2 ht

/-- Helper: with unique keys, copying entries into a fresh empty map
reproduces exactly the entries' lookup function. -/
theorem rangeCopy_empty_get (es : PMap) (k : String)
    (hnd : (es.map Prod.fst).Nodup) :
    mapGet (rangeCopy [] es) k = mapGet es k := by
  cases h : mapGet es k with
  | none => rw [rangeCopy_get_absent es [] k h]; rfl
  | some v => exact rangeCopy_get_present es [] k v hnd h

/-- Helper: a range-copy through one reference leaves every other reference
unchanged. -/
theorem heapRead_rangeCopy_ne (es : PMap) :
    ∀ (h : MapHeap) (dst i : Nat), i ≠ dst →
      heapRead (heapRangeCopy h dst es) i = heapRead h i := by
  induction es with
  | nil => intro h dst i _; rfl
  | cons hd tl ih =>
      intro h dst i hne
      have hstep : heapRangeCopy h dst (hd :: tl) =
          heapRangeCopy (heapWriteKV h dst hd.1 hd.2) dst tl := rfl
      rw [hstep, ih _ dst i hne]
      simp [heapRead, heapWriteKV, List.getD_eq_getElem?_getD,
        List.getElem?_set_ne (fun hh => hne hh.symm)]

/-- Helper: a range-copy preserves the heap's length. -/
theorem length_heapRangeCopy (es : PMap) :
    ∀ (h : MapHeap) (dst : Nat),
      (heapRangeCopy h dst es).length = h.length := by
  induction es with
  | nil => intro h dst; rfl
  | cons hd tl ih =>
      intro h dst
      have hstep : heapRangeCopy h dst (hd :: tl) =
          heapRangeCopy (heapWriteKV h dst hd.1 hd.2) dst tl := rfl
      rw [hstep, ih]
      simp [heapWriteKV]

/-- Helper: a range-copy through a valid reference acts on the referenced
map exactly as the pure copy loop does. -/
theorem heapRead_rangeCopy_self (es : PMap) :
    ∀ (h : MapHeap) (dst : Nat), dst < h.length →
      heapRead (heapRangeCopy h dst es) dst = rangeCopy (heapRead h dst) es := by
  induction es with
  | nil => intro h dst _; rfl
  | cons hd tl ih =>
      intro h dst hlt
      have hstep : heapRangeCopy h dst (hd :: tl) =
          heapRangeCopy (heapWriteKV h dst hd.1 hd.2) dst tl := rfl
      have hlen : dst < (heapWriteKV h dst hd.1 hd.2).length := by
        simpa [heapWriteKV] using hlt
      have hread : heapRead (heapWriteKV h dst hd.1 hd.2) dst =
          mapSet (heapRead h dst) hd.1 hd.2 := by
        simp [heapRead, heapWriteKV, List.getD_eq_getElem?_getD,
          List.getElem?_set_eq_of_lt _ hlt]
      rw [hstep, ih _ dst hlen, hread]
      rfl

/-- Helper: appending a fresh slot does not change existing references. -/
theorem heapRead_append_left (h : MapHeap) (i : Nat) (hi : i < h.length) :
    heapRead (h ++ [[]]) i = heapRead h i := by
  simp [heapRead, List.getD_eq_getElem?_getD, List.getElem?_append_left hi]

/-- Claim C9: merging params never mutates the caller's mappings — the merge
allocates a fresh reference (one past every existing reference), every
pre-existing map reads back unchanged afterwards, and the fresh map holds
the original entries with the extra entries merged over them, an extra entry
overriding the original one on a shared key. -/
theorem claim_C9 (h : MapHeap) (ep pp : Nat)
    (hep : ep < h.length) (hpp : pp < h.length)
    (hndep : ((heapRead h ep).map Prod.fst).Nodup)
    (hndpp : ((heapRead h pp).map Prod.fst).Nodup) :
    (addParamsHeap h ep pp).2 = h.length ∧
    (∀ i, i < h.length →
      heapRead (addParamsHeap h ep pp).1 i = heapRead h i) ∧
    (∀ k v, mapGet (heapRead h pp) k = some v →
      mapGet (heapRead (addParamsHeap h ep pp).1 (addParamsHeap h ep pp).2) k
        = some v) ∧
    (∀ k, mapGet (heapRead h pp) k = none →
      mapGet (heapRead (addParamsHeap h ep pp).1 (addParamsHeap h ep pp).2) k
        = mapGet (heapRead h ep) k) := by
  have hpd : (addParamsHeap h ep pp).1 =
      heapRangeCopy
        (heapRangeCopy (h ++ [[]]) h.length (heapRead (h ++ [[]]) ep))
        h.length
        (heapRead
          (heapRangeCopy (h ++ [[]]) h.length (heapRead (h ++ [[]]) ep)) pp) :=
    rfl
  have hp2 : (addParamsHeap h ep pp).2 = h.length := rfl
  have hLlt : h.length < (h ++ [[]]).length := by simp
  have hepr : heapRead (h ++ [[]]) ep = heapRead h ep :=
    heapRead_append_left h ep hep
  have hppr : heapRead
      (heapRangeCopy (h ++ [[]]) h.length (heapRead (h ++ [[]]) ep)) pp =
      heapRead h pp := by
    rw [heapRead_rangeCopy_ne _ _ _ _ (by omega)]
    exact heapRead_append_left h pp hpp
  have hfreshL : heapRead (h ++ [[]]) h.length = [] := by
    simp [heapRead, List.getD_eq_getElem?_getD, List.getElem?_concat_length]
  have hmidlen : h.length <
      (heapRangeCopy (h ++ [[]]) h.length (heapRead (h ++ [[]]) ep)).length := by
    rw [length_heapRangeCopy]
    exact hLlt
  have hmidL : heapRead
      (heapRangeCopy (h ++ [[]]) h.length (heapRead (h ++ [[]]) ep)) h.length =
      rangeCopy [] (heapRead h ep) := by
    rw [heapRead_rangeCopy_self _ _ _ hLlt, hfreshL, hepr]
  have hfinalL :
      heapRead (addParamsHeap h ep pp).1 h.length =
        rangeCopy (rangeCopy [] (heapRead h ep)) (heapRead h pp) := by
    rw [hpd, heapRead_rangeCopy_self _ _ _ hmidlen, hmidL, hppr]
  refine ⟨hp2, ?_, ?_, ?_⟩
  · intro i hi
    rw [hpd, heapRead_rangeCopy_ne _ _ _ _ (by omega),
      heapRead_rangeCopy_ne _ _ _ _ (by omega)]
    exact heapRead_append_left h i hi
  · intro k v hkv
    rw [hp2, hfinalL]
    exact rangeCopy_get_present _ _ k v hndpp hkv
  · intro k hk
    rw [hp2, hfinalL, rangeCopy_get_absent _ _ k hk]
    exact rangeCopy_empty_get _ k hndep

/-- Claim C9, witness on a concrete two-map heap sharing the key `"k"`. -/
theorem claim_C9_witness :
    (addParamsHeap mapHeap0 0 1).2 = mapHeap0.length ∧
    heapRead (addParamsHeap mapHeap0 0 1).1 0 = [("a", "1"), ("k", "orig")] ∧
    heapRead (addParamsHeap mapHeap0 0 1).1 1 = [("k", "new"), ("b", "2")] ∧
    mapGet (heapRead (addParamsHeap mapHeap0 0 1).1 (addParamsHeap mapHeap0 0 1).2)
      "k" = some "new" ∧
    mapGet (heapRead (addParamsHeap mapHeap0 0 1).1 (addParamsHeap mapHeap0 0 1).2)
      "a" = some "1" := by
  have H := claim_C9 mapHeap0 0 1 (by decide) (by decide) (by decide) (by decide)
  refine ⟨H.1, ?_, ?_, ?_, ?_⟩
  · rw [H.2.1 0 (by decide)]; rfl
  · rw [H.2.1 1 (by decide)]; rfl
  · exact H.2.2.1 "k" "new" (by decide)
  · rw [H.2.2.2 "a" (by decide)]; rfl

end Terrors
